import Mathlib

/-!
Verification of the lite-vid-rush timeline engine.

Shallow embedding of `lib/types.ts`, `lib/timelineOps.ts`, the zustand
store actions (`lib/store.ts`) and the clock-sync guard of
`components/Preview.tsx`.  Frame positions, durations and `order` fields
are JS numbers used as integers, embedded as `Int`; volumes, zoom and
scale factors are embedded as `Rat`.
-/

set_option maxRecDepth 4000

namespace VidRush

/-- `position` field of `Clip` / `TextOverlay` (`lib/types.ts`). -/
structure Position where
  x : Rat
  y : Rat
deriving DecidableEq

/-- `scale` field of `Clip` / `TextOverlay` (`lib/types.ts`). -/
structure Scale where
  width : Rat
  height : Rat
deriving DecidableEq

/-- `type` field of `Clip`: 'video' | 'audio' | 'image' (`lib/types.ts`). -/
inductive MediaType where
  | video
  | audio
  | image
deriving DecidableEq

/-- `fontWeight`: 'normal' | 'bold' (`lib/types.ts`). -/
inductive FontWeight where
  | normal
  | bold
deriving DecidableEq

/-- `textAlign`: 'left' | 'center' | 'right' (`lib/types.ts`). -/
inductive TextAlign where
  | left
  | center
  | right
deriving DecidableEq

/-- `style` field of `TextOverlay` (`lib/types.ts`). -/
structure TextStyle where
  fontSize : Rat
  fontFamily : String
  color : String
  backgroundColor : Option String
  opacity : Rat
  fontWeight : FontWeight
  textAlign : TextAlign
deriving DecidableEq

/-- `Clip` (`lib/types.ts`).  Optional TS fields become `Option`. -/
structure Clip where
  id : String
  src : String
  startFrame : Int
  endFrame : Int
  order : Int
  type : MediaType
  position : Option Position
  scale : Option Scale
  rotation : Option Rat
  volume : Option Rat
  muted : Option Bool
  trimStart : Option Int
  trimEnd : Option Int
deriving DecidableEq

/-- `TextOverlay` (`lib/types.ts`). -/
structure TextOverlay where
  id : String
  text : String
  startFrame : Int
  endFrame : Int
  position : Position
  scale : Option Scale
  rotation : Option Rat
  style : TextStyle
deriving DecidableEq

/-- `EditorState` (`lib/types.ts`). -/
structure EditorState where
  media : List Clip
  texts : List TextOverlay
  selectedId : Option String
  playhead : Int
  frameRate : Int
  duration : Int
  isPlaying : Bool
  masterVolume : Rat
  muted : Bool
  zoom : Rat
  scrollPosition : Rat
deriving DecidableEq

/-- `calculateTimelineDuration` (`timelineOps.ts` 205-212):
`Math.max(...media endFrames, ...text endFrames, 0)`. -/
def calculateTimelineDuration (state : EditorState) : Int :=
  (state.media.map Clip.endFrame ++ state.texts.map TextOverlay.endFrame).foldr max 0

/-- `getMinimumTimelineDuration` (`timelineOps.ts` 217-219): alias. -/
def getMinimumTimelineDuration (state : EditorState) : Int :=
  calculateTimelineDuration state

/-- `getOptimalTimelineDuration` with an explicit `bufferSeconds` argument
(`timelineOps.ts` 224-228): `max(minDuration + bufferSeconds*frameRate, frameRate*10)`. -/
def getOptimalTimelineDurationWith (state : EditorState) (bufferSeconds : Int) : Int :=
  max (getMinimumTimelineDuration state + bufferSeconds * state.frameRate)
      (state.frameRate * 10)

/-- `getOptimalTimelineDuration` at the default `bufferSeconds = 2`
(the only way the repository calls it). -/
def getOptimalTimelineDuration (state : EditorState) : Int :=
  getOptimalTimelineDurationWith state 2

/-- `autoAdjustTimelineDuration` (`timelineOps.ts` 233-239):
`duration' = max(optimalDuration, duration)`, never shrinks. -/
def autoAdjustTimelineDuration (state : EditorState) : EditorState :=
  { state with duration := max (getOptimalTimelineDuration state) state.duration }

/-- `fitTimelineToContent` (`timelineOps.ts` 244-253):
`duration' = max(minimumDuration, frameRate*5)`. -/
def fitTimelineToContent (state : EditorState) : EditorState :=
  { state with
      duration := max (getMinimumTimelineDuration state) (state.frameRate * 5) }

/-- `setPlayhead` (`timelineOps.ts` 130-136): clamp into `[0, duration]`
and stop playback. -/
def setPlayhead (state : EditorState) (frame : Int) : EditorState :=
  { state with
      playhead := max 0 (min frame state.duration)
      isPlaying := false }

/-- `trimClip` (`timelineOps.ts` 64-82).  Note the source floors the new
end at `newStartFrame + 1` using the RAW input, not the clamped start. -/
def trimClip (state : EditorState) (clipId : String)
    (newStartFrame newEndFrame : Int) : EditorState :=
  { state with
      media := state.media.map fun clip =>
        if clip.id = clipId then
          { clip with
              startFrame := max 0 newStartFrame
              endFrame := max (newStartFrame + 1) newEndFrame }
        else clip }

/-- `trimTextOverlay` (`timelineOps.ts` 87-105): same arithmetic on `texts`. -/
def trimTextOverlay (state : EditorState) (textId : String)
    (newStartFrame newEndFrame : Int) : EditorState :=
  { state with
      texts := state.texts.map fun text =>
        if text.id = textId then
          { text with
              startFrame := max 0 newStartFrame
              endFrame := max (newStartFrame + 1) newEndFrame }
        else text }

/-- The `order: index` renumbering map of `removeItem` / `reorderClips`
(`timelineOps.ts` 53-56 and 116-119), with an explicit starting index. -/
def renumberFrom (i : Int) : List Clip → List Clip
  | [] => []
  | clip :: rest => { clip with order := i } :: renumberFrom (i + 1) rest

/-- `media.map((clip, index) => ({...clip, order: index}))`. -/
def renumber (l : List Clip) : List Clip :=
  renumberFrom 0 l

/-- `removeItem` (`timelineOps.ts` 44-59): filter both lists by id, clear a
matching selection, renumber the remaining clips. -/
def removeItem (state : EditorState) (id : String) : EditorState :=
  { state with
      media := renumber (state.media.filter fun clip => clip.id ≠ id)
      texts := state.texts.filter fun text => text.id ≠ id
      selectedId := if state.selectedId = some id then none else state.selectedId }

/-- The insertion half of `splice(toIndex, 0, x)` for a non-negative index:
insert at position `k`, clamped to the end of the list. -/
def insertAt {α : Type} : Nat → α → List α → List α
  | _, x, [] => [x]
  | 0, x, l => x :: l
  | k + 1, x, a :: rest => a :: insertAt k x rest

/-- JS `splice` index resolution: a negative index counts from the end
(floored at 0), a non-negative one is capped at the length. -/
def jsIdx (i : Int) (n : Nat) : Nat :=
  if i < 0 then ((n : Int) + i).toNat else min i.toNat n

/-- An element of the array produced by `reorderClips` at runtime: either a
proper clip, or — when `splice(fromIndex, 1)` removed nothing and its
`undefined` result was re-inserted — the object `{order: index}` that
`{...undefined, order: index}` evaluates to. -/
inductive MediaElem where
  | clip (c : Clip)
  | ghost (order : Int)
deriving DecidableEq

/-- The `order: index` map of `reorderClips` run over an array that may
hold the `undefined` splice result. -/
def renumberElems (i : Int) : List (Option Clip) → List MediaElem
  | [] => []
  | some c :: rest => .clip { c with order := i } :: renumberElems (i + 1) rest
  | none :: rest => .ghost i :: renumberElems (i + 1) rest

/-- `reorderClips` (`timelineOps.ts` 110-125) at the JS runtime level, for
arbitrary (possibly negative or too-large) indices: `splice(fromIndex, 1)`
removes the element at the resolved index when it exists (else nothing and
`movedClip` is `undefined`), `splice(toIndex, 0, movedClip)` re-inserts it,
and every element is rebuilt with `order: index`. -/
def reorderMediaJS (media : List Clip) (fromIndex toIndex : Int) : List MediaElem :=
  let n := media.length
  let kf := jsIdx fromIndex n
  let moved : Option Clip := media.get? kf
  let rest : List Clip := if kf < n then media.eraseIdx kf else media
  let kt := jsIdx toIndex rest.length
  renumberElems 0 (insertAt kt moved (rest.map some))

/-- `reorderClips` (`timelineOps.ts` 110-125) at the `EditorState` level
for a `fromIndex` that resolves to an existing clip; the out-of-range
runtime behaviour, which leaves the declared `Clip[]` type, is modelled by
`reorderMediaJS`. -/
def reorderClips (state : EditorState) (fromIndex toIndex : Nat) : EditorState :=
  match state.media.get? fromIndex with
  | none => state
  | some movedClip =>
    let rest := state.media.eraseIdx fromIndex
    { state with
        media := renumber (insertAt (min toIndex rest.length) movedClip rest) }

/-- The store action `setPlayhead` (`store.ts` 140-145): clamp into
`[0, duration]` WITHOUT touching `isPlaying` (the sync-from-clock path). -/
def storeSetPlayhead (state : EditorState) (frame : Int) : EditorState :=
  { state with playhead := max 0 (min frame state.duration) }

/-- The store action `seekTo` (`store.ts` 148-153): clamp into
`[0, duration]` and stop playback (the user-seek path). -/
def seekTo (state : EditorState) (frame : Int) : EditorState :=
  { state with
      playhead := max 0 (min frame state.duration)
      isPlaying := false }

/-- The store action `setDuration` (`store.ts` 202-206):
`duration = max(0, duration)`, playhead untouched. -/
def setDuration (state : EditorState) (duration : Int) : EditorState :=
  { state with duration := max 0 duration }

/-- The store action `shrinkTimeline` (`store.ts` 221-228): remove
`secondsToRemove * frameRate` frames but never go below the content
extent; playhead untouched. -/
def shrinkTimeline (state : EditorState) (secondsToRemove : Int) : EditorState :=
  { state with
      duration := max (state.duration - secondsToRemove * state.frameRate)
                      (getMinimumTimelineDuration state) }

/-- The find-then-mutate loop of the store action `setClipVolume`
(`store.ts` 256-263): only the FIRST clip with a matching id is updated. -/
def setVolFirst (clipId : String) (volume : Rat) : List Clip → List Clip
  | [] => []
  | clip :: rest =>
    if clip.id = clipId then
      { clip with volume := some (max 0 (min 1 volume)) } :: rest
    else clip :: setVolFirst clipId volume rest

/-- The store action `setClipVolume` (`store.ts` 256-263): clamp the
volume into `[0,1]` on the found clip, no-op when the id is unmatched. -/
def setClipVolume (state : EditorState) (clipId : String) (volume : Rat) : EditorState :=
  { state with media := setVolFirst clipId volume state.media }

/-- The clock-sync guard of the `frameupdate` poller in `Preview.tsx`
58-68: the store `setPlayhead` action is invoked only while playing and
only when the player frame differs from the playhead by more than 2
frames (the end-of-timeline pause check that follows it is a separate
step, not part of the sync update).  The player frame is given as an
integer; the `currentFrame !== undefined` guard is vacuous here. -/
def syncFromClock (state : EditorState) (currentFrame : Int) : EditorState :=
  if state.isPlaying ∧ 2 < (currentFrame - state.playhead).natAbs then
    storeSetPlayhead state currentFrame
  else state

/-- Stable sort of the clips by `startFrame`
(`[...state.media].sort((a, b) => a.startFrame - b.startFrame)`,
`timelineOps.ts` 287).  JS `Array.prototype.sort` is stable, so insertion
into an already-sorted tail after all equal keys reproduces it exactly. -/
def insertByStart (c : Clip) : List Clip → List Clip
  | [] => [c]
  | d :: rest =>
    if c.startFrame ≤ d.startFrame then c :: d :: rest
    else d :: insertByStart c rest

/-- Stable insertion sort by `startFrame`; extensionally equal to the JS
stable comparator sort of `validateTimelineState`. -/
def sortByStart : List Clip → List Clip
  | [] => []
  | c :: rest => insertByStart c (sortByStart rest)

/-- The overlap loop of `validateTimelineState` (`timelineOps.ts`
287-294): one message per adjacent sorted pair with
`current.endFrame > next.startFrame`. -/
def adjacentOverlaps : List Clip → List String
  | current :: next :: rest =>
    (if next.startFrame < current.endFrame then
      ["Clip " ++ current.id ++ " overlaps with clip " ++ next.id]
    else []) ++ adjacentOverlaps (next :: rest)
  | _ => []

/-- The per-item checks of `validateTimelineState` (`timelineOps.ts`
297-304), over the (id, startFrame, endFrame) view of an item. -/
def itemRangeErrors (item : String × Int × Int) : List String :=
  (if item.2.2 ≤ item.2.1 then
    ["Item " ++ item.1 ++ " has invalid frame range: " ++
      toString item.2.1 ++ "-" ++ toString item.2.2]
  else []) ++
  (if item.2.1 < 0 then
    ["Item " ++ item.1 ++ " has negative start frame: " ++ toString item.2.1]
  else [])

/-- The `[...state.media, ...state.texts]` view used by the range checks. -/
def allItems (state : EditorState) : List (String × Int × Int) :=
  state.media.map (fun c => (c.id, c.startFrame, c.endFrame)) ++
  state.texts.map (fun t => (t.id, t.startFrame, t.endFrame))

/-- `validateTimelineState` (`timelineOps.ts` 283-307): overlap
diagnostics over the sorted clips, then the range diagnostics for every
clip and overlay, in source push order. -/
def validateTimelineState (state : EditorState) : List String :=
  adjacentOverlaps (sortByStart state.media) ++
  (allItems state).flatMap itemRangeErrors

/-- Overlap diagnostics written from the specification's description:
zip the sorted clips with their own tail and emit one message per
adjacent pair with `previous.endFrame > next.startFrame`. -/
def overlapDiagnosticsSpec (clips : List Clip) : List String :=
  ((sortByStart clips).zip (sortByStart clips).tail).filterMap fun p =>
    if p.2.startFrame < p.1.endFrame then
      some ("Clip " ++ p.1.id ++ " overlaps with clip " ++ p.2.id)
    else none

/-- `{c with order := 0}`: the identity-relevant part of a clip, with the
positional `order` field erased. -/
def stripOrder (c : Clip) : Clip :=
  { c with order := 0 }

/-- The contiguous order sequence `0, 1, ..., n-1` as `Int`s. -/
def rangeOrders (n : Nat) : List Int :=
  (List.range n).map fun (k : Nat) => (k : Int)

/-- The runtime array element seen through `stripOrder`: a proper clip
(modulo `order`) or, for the malformed `{order}` object, nothing. -/
def elemStrip : MediaElem → Option Clip
  | .clip c => some (stripOrder c)
  | .ghost _ => none

/-- A video clip with the given id, frame range and order and all
optional fields absent, used for concrete instances. -/
def mkClip (id : String) (s e o : Int) : Clip :=
  { id := id, src := "f.mp4", startFrame := s, endFrame := e, order := o,
    type := .video, position := none, scale := none, rotation := none,
    volume := none, muted := none, trimStart := none, trimEnd := none }

/-- `DEFAULT_EDITOR_STATE` (`lib/types.ts` 118-130). -/
def baseState : EditorState :=
  { media := [], texts := [], selectedId := none, playhead := 0,
    frameRate := 30, duration := 900, isPlaying := false,
    masterVolume := 1, muted := false, zoom := 1, scrollPosition := 0 }

/-- Three distinct clips, used for concrete reorder instances. -/
def threeClipState : EditorState :=
  { baseState with
      media := [mkClip "c1" 0 10 0, mkClip "c2" 10 20 1, mkClip "c3" 20 30 2] }

/-- The two-clip state of the spec's overlap scenario:
clip `c1` on `[0, 60)` and clip `c2` on `[50, 100)`. -/
def overlapScenarioState : EditorState :=
  { baseState with media := [mkClip "c1" 0 60 0, mkClip "c2" 50 100 1] }

section Helpers

/-- Mapping a function that fixes every member of a list is the identity. -/
theorem map_eq_self_of_noop {α : Type} (l : List α) (f : α → α)
    (h : ∀ a ∈ l, f a = a) : l.map f = l := by
  induction l with
  | nil => rfl
  | cons a rest ih =>
    simp only [List.map_cons, h a (List.mem_cons_self a rest)]
    exact congrArg (a :: ·) (ih fun b hb => h b (List.mem_cons_of_mem a hb))

/-- Filtering by a predicate that holds on every member is the identity. -/
theorem filter_eq_self_of_noop {α : Type} (l : List α) (p : α → Bool)
    (h : ∀ a ∈ l, p a = true) : l.filter p = l := by
  induction l with
  | nil => rfl
  | cons a rest ih =>
    simp only [List.filter_cons, h a (List.mem_cons_self a rest), if_true]
    exact congrArg (a :: ·) (ih fun b hb => h b (List.mem_cons_of_mem a hb))

/-- `renumberFrom` preserves list length. -/
theorem length_renumberFrom (l : List Clip) : ∀ i, (renumberFrom i l).length = l.length := by
  induction l with
  | nil => intro i; rfl
  | cons c rest ih => intro i; simp [renumberFrom, ih]

/-- `renumberFrom` only changes the `order` fields. -/
theorem strip_renumberFrom (l : List Clip) :
    ∀ i, (renumberFrom i l).map stripOrder = l.map stripOrder := by
  induction l with
  | nil => intro i; rfl
  | cons c rest ih => intro i; simp [renumberFrom, List.map_cons, stripOrder, ih]

/-- The `order` fields written by `renumberFrom i` are `i, i+1, ...`. -/
theorem orders_renumberFrom (l : List Clip) :
    ∀ i, (renumberFrom i l).map Clip.order =
      (List.range l.length).map fun (k : Nat) => i + (k : Int) := by
  induction l with
  | nil => intro i; rfl
  | cons c rest ih =>
    intro i
    rw [renumberFrom, List.map_cons, List.length_cons, List.range_succ_eq_map,
      List.map_cons, List.map_map, ih (i + 1)]
    refine congrArg₂ (· :: ·) (by push_cast; ring) ?_
    refine List.map_congr_left fun k _ => ?_
    simp only [Function.comp_apply]
    push_cast
    ring

/-- A list whose `order` fields already read `i, i+1, ...` is fixed by
`renumberFrom i`. -/
theorem renumberFrom_eq_self (l : List Clip) :
    ∀ i, l.map Clip.order = ((List.range l.length).map fun (k : Nat) => i + (k : Int)) →
      renumberFrom i l = l := by
  induction l with
  | nil => intro i _; rfl
  | cons c rest ih =>
    intro i h
    rw [List.map_cons, List.length_cons, List.range_succ_eq_map, List.map_cons,
      List.map_map] at h
    simp only [List.cons.injEq] at h
    obtain ⟨h0, hrest⟩ := h
    have hc : ({ c with order := i } : Clip) = c := by
      have h0l : c.order = i := by simpa using h0
      cases c
      simp_all
    have hrest' : rest.map Clip.order =
        (List.range rest.length).map fun (k : Nat) => (i + 1) + (k : Int) := by
      refine hrest.trans (List.map_congr_left fun k _ => ?_)
      simp only [Function.comp_apply]
      push_cast
      ring
    simp [renumberFrom, hc, ih (i + 1) hrest']

/-- `insertAt` grows the length by one. -/
theorem length_insertAt {α : Type} (k : Nat) (x : α) (l : List α) :
    (insertAt k x l).length = l.length + 1 := by
  induction l generalizing k with
  | nil => cases k <;> rfl
  | cons a rest ih =>
    cases k with
    | zero => rfl
    | succ k => simp [insertAt, ih k]

/-- `insertAt` commutes with `map`. -/
theorem map_insertAt {α β : Type} (g : α → β) (k : Nat) (x : α) (l : List α) :
    (insertAt k x l).map g = insertAt k (g x) (l.map g) := by
  induction l generalizing k with
  | nil => cases k <;> rfl
  | cons a rest ih =>
    cases k with
    | zero => rfl
    | succ k => simp [insertAt, ih k]

/-- Erasing at the (clamped) insertion point undoes `insertAt`. -/
theorem eraseIdx_insertAt {α : Type} (k : Nat) (x : α) (l : List α) :
    (insertAt k x l).eraseIdx (min k l.length) = l := by
  induction l generalizing k with
  | nil => cases k <;> rfl
  | cons a rest ih =>
    cases k with
    | zero => rfl
    | succ k =>
      simp only [insertAt, List.length_cons, Nat.succ_min_succ, List.eraseIdx_cons_succ]
      exact congrArg (a :: ·) (ih k)

/-- The inserted element sits at the (clamped) insertion point. -/
theorem get_insertAt {α : Type} (k : Nat) (x : α) (l : List α) :
    (insertAt k x l).get? (min k l.length) = some x := by
  induction l generalizing k with
  | nil => cases k <;> rfl
  | cons a rest ih =>
    cases k with
    | zero => rfl
    | succ k => simpa [insertAt, Nat.succ_min_succ] using ih k

/-- `insertAt` is the cons permuted into place. -/
theorem insertAt_perm {α : Type} (k : Nat) (x : α) (l : List α) :
    (insertAt k x l).Perm (x :: l) := by
  induction l generalizing k with
  | nil => cases k <;> exact List.Perm.refl _
  | cons a rest ih =>
    cases k with
    | zero => exact List.Perm.refl _
    | succ k => exact ((ih k).cons a).trans (List.Perm.swap x a rest)

/-- A list is a permutation of any one member consed onto its erasure. -/
theorem perm_get_cons_eraseIdx {α : Type} (l : List α) :
    ∀ (k : Nat) (h : k < l.length), l.Perm (l.get ⟨k, h⟩ :: l.eraseIdx k) := by
  induction l with
  | nil => intro k h; cases h
  | cons a rest ih =>
    intro k h
    cases k with
    | zero => exact List.Perm.refl _
    | succ k =>
      have h' : k < rest.length := Nat.lt_of_succ_lt_succ h
      exact ((ih k h').cons a).trans
        (List.Perm.swap (rest.get ⟨k, h'⟩) a (rest.eraseIdx k))

/-- `eraseIdx` commutes with `map`. -/
theorem map_eraseIdx {α β : Type} (g : α → β) (l : List α) :
    ∀ k, (l.eraseIdx k).map g = (l.map g).eraseIdx k := by
  induction l with
  | nil => intro k; rfl
  | cons a rest ih =>
    intro k
    cases k with
    | zero => rfl
    | succ k => simp [List.eraseIdx_cons_succ, ih k]

/-- `renumberElems` preserves length. -/
theorem length_renumberElems (l : List (Option Clip)) :
    ∀ i, (renumberElems i l).length = l.length := by
  induction l with
  | nil => intro i; rfl
  | cons a rest ih =>
    intro i
    cases a <;> simp [renumberElems, ih]

/-- `renumberElems` only rewrites `order` fields: seen through
`elemStrip` it is the `stripOrder` image of its input. -/
theorem elemStrip_renumberElems (l : List (Option Clip)) :
    ∀ i, (renumberElems i l).map elemStrip = l.map (Option.map stripOrder) := by
  induction l with
  | nil => intro i; rfl
  | cons a rest ih =>
    intro i
    cases a <;> simp [renumberElems, elemStrip, stripOrder, ih]

/-- A `none` in the runtime array becomes the ghost `{order: index}`. -/
theorem renumberElems_get_ghost (l : List (Option Clip)) :
    ∀ (i : Int) (k : Nat), l.get? k = some none →
      (renumberElems i l).get? k = some (.ghost (i + (k : Int))) := by
  induction l with
  | nil => intro i k h; cases h
  | cons a rest ih =>
    intro i k h
    cases k with
    | zero =>
      cases a with
      | none => simp [renumberElems]
      | some c => simp at h
    | succ k =>
      have h' : rest.get? k = some none := h
      have hk : (i + 1) + (k : Int) = i + ((k + 1 : Nat) : Int) := by push_cast; ring
      cases a with
      | none =>
        show (renumberElems (i + 1) rest).get? k = _
        rw [ih (i + 1) k h']
        exact congrArg some (congrArg MediaElem.ghost hk)
      | some c =>
        show (renumberElems (i + 1) rest).get? k = _
        rw [ih (i + 1) k h']
        exact congrArg some (congrArg MediaElem.ghost hk)

/-- The overlap loop of the source equals the zip-with-tail form of the
specification. -/
theorem adjacentOverlaps_eq_zip (l : List Clip) :
    adjacentOverlaps l = (l.zip l.tail).filterMap fun p =>
      if p.2.startFrame < p.1.endFrame then
        some ("Clip " ++ p.1.id ++ " overlaps with clip " ++ p.2.id)
      else none := by
  induction l with
  | nil => rfl
  | cons a rest ih =>
    cases rest with
    | nil => rfl
    | cons b rest2 =>
      simp only [adjacentOverlaps, List.tail_cons, List.zip_cons_cons,
        List.filterMap_cons]
      rw [ih]
      by_cases hover : b.startFrame < a.endFrame <;> simp [hover, List.tail_cons]

end Helpers

/-- A one-clip state (clip `c1` on `[0, 100)`) for the trim instances. -/
def trimCexState : EditorState :=
  { baseState with media := [mkClip "c1" 0 100 0] }

/-- A playing state for the clock-sync instances. -/
def playingState : EditorState :=
  { baseState with isPlaying := true }

/-- A state whose playhead sits at its 500-frame duration with no
content, for the duration-shrink instances. -/
def playheadEscapeState : EditorState :=
  { baseState with playhead := 500, duration := 500 }

/-- `duration = 500` with one clip ending at frame 100 at 30 fps: the
spec's fit-to-content scenario. -/
def fitScenarioState : EditorState :=
  { baseState with duration := 500, media := [mkClip "cA" 0 100 0] }

/-- C1, counterexample.  On clip `c1 = [0, 100)`, `trim(-5, 0)` produces
`startFrame = 0` but `endFrame = max(-5 + 1, 0) = 0`: the one-frame floor
is applied to the raw input, so the result is the empty range `[0, 0)`,
not the `endFrame = max(0 + 1, 0) = 1` the claim derives from the
clamped start, and `start' < end'` fails. -/
theorem trim_floor_counterexample :
    (trimClip trimCexState "c1" (-5) 0).media.map Clip.startFrame = [0] ∧
    (trimClip trimCexState "c1" (-5) 0).media.map Clip.endFrame = [0] ∧
    max (max (0 : Int) (-5) + 1) 0 = 1 ∧
    ¬ ∀ c ∈ (trimClip trimCexState "c1" (-5) 0).media,
        c.startFrame < c.endFrame := by
  decide

/-- C1 (amended): trimming sets `start' = max(0, newStart)` and
`end' = max(newStart + 1, newEnd)` — the one-frame floor is applied to
the RAW `newStart`, not the clamped one — on every matching clip or
overlay, leaving everything else unchanged; consequently
`0 ≤ start' < end'` is only guaranteed when `newStart ≥ 0`. -/
theorem trim_raw_floor (s : EditorState) (id : String) (a b : Int) :
    trimClip s id a b =
      { s with media := s.media.map fun c =>
          if c.id = id then
            { c with startFrame := max 0 a, endFrame := max (a + 1) b }
          else c } ∧
    trimTextOverlay s id a b =
      { s with texts := s.texts.map fun t =>
          if t.id = id then
            { t with startFrame := max 0 a, endFrame := max (a + 1) b }
          else t } ∧
    (0 ≤ a → ∀ c ∈ (trimClip s id a b).media, c.id = id →
      0 ≤ c.startFrame ∧ c.startFrame < c.endFrame) := by
  refine ⟨rfl, rfl, fun ha c hc hid => ?_⟩
  obtain ⟨c0, hc0, rfl⟩ := List.mem_map.mp hc
  by_cases h0 : c0.id = id
  · simp only [h0, if_true]
    refine ⟨le_max_left 0 a, ?_⟩
    show max 0 a < max (a + 1) b
    rw [max_eq_right ha]
    exact lt_of_lt_of_le (by omega) (le_max_left (a + 1) b)
  · simp only [h0, if_false] at hid

/-- C1, witness: with `newStart = 5 ≥ 0` the trimmed clip satisfies
`0 ≤ start' < end'`. -/
theorem trim_raw_floor_witness :
    (0 : Int) ≤ 5 ∧
    ∀ c ∈ (trimClip trimCexState "c1" 5 3).media, c.id = "c1" →
      0 ≤ c.startFrame ∧ c.startFrame < c.endFrame :=
  ⟨by decide, (trim_raw_floor trimCexState "c1" 5 3).2.2 (by decide)⟩

/-- C2: the playhead-in-range invariant is NOT enforced by the code at
the failing input: with `playhead = duration = 500` and no content at
30 fps, `fitTimelineToContent` shrinks the duration to 150 but leaves
the playhead at 500, and the store's `setDuration(100)` leaves it at 500
above the new duration 100. -/
theorem fit_playhead_escape :
    (fitTimelineToContent playheadEscapeState).duration = 150 ∧
    (fitTimelineToContent playheadEscapeState).playhead = 500 ∧
    ¬ ((fitTimelineToContent playheadEscapeState).playhead ≤
        (fitTimelineToContent playheadEscapeState).duration) ∧
    (setDuration playheadEscapeState 100).duration = 100 ∧
    (setDuration playheadEscapeState 100).playhead = 500 := by
  decide

/-- C3: `autoAdjustTimelineDuration` only replaces `duration` by
`max(optimalDuration, duration)` where `optimalDuration =
max(contentExtent + 2·frameRate, 10·frameRate)`, and therefore never
shrinks the duration (monotonic ratchet). -/
theorem autoAdjust_ratchet (s : EditorState) :
    autoAdjustTimelineDuration s =
      { s with duration := max (getOptimalTimelineDuration s) s.duration } ∧
    getOptimalTimelineDuration s =
      max (calculateTimelineDuration s + 2 * s.frameRate) (10 * s.frameRate) ∧
    s.duration ≤ (autoAdjustTimelineDuration s).duration := by
  refine ⟨rfl, ?_, le_max_right _ _⟩
  unfold getOptimalTimelineDuration getOptimalTimelineDurationWith
    getMinimumTimelineDuration
  rw [mul_comm s.frameRate 10]

/-- C4: `fitTimelineToContent` sets `duration` to exactly
`max(contentExtent, 5·frameRate)` and changes nothing else; on the
spec's scenario (`duration = 500`, one clip ending at 100, 30 fps) it
shrinks the duration to 150. -/
theorem fitToContent_exact (s : EditorState) :
    fitTimelineToContent s =
      { s with duration := max (calculateTimelineDuration s) (5 * s.frameRate) } ∧
    (fitTimelineToContent fitScenarioState).duration = 150 ∧
    (fitTimelineToContent fitScenarioState).duration <
      fitScenarioState.duration := by
  refine ⟨?_, by decide, by decide⟩
  unfold fitTimelineToContent getMinimumTimelineDuration
  rw [mul_comm s.frameRate 5]

/-- C6: the user seek `setPlayhead` returns the playhead equal to the
input frame clamped into `[0, duration]` (hence in range whenever the
state's duration is non-negative, as the data model requires) and always
stops playback; the store's `seekTo` action is the same function. -/
theorem setPlayhead_clamps (s : EditorState) (f : Int) (h : 0 ≤ s.duration) :
    (setPlayhead s f).playhead = max 0 (min f s.duration) ∧
    0 ≤ (setPlayhead s f).playhead ∧
    (setPlayhead s f).playhead ≤ (setPlayhead s f).duration ∧
    (setPlayhead s f).isPlaying = false ∧
    seekTo s f = setPlayhead s f := by
  refine ⟨rfl, le_max_left 0 _, ?_, rfl, rfl⟩
  show max 0 (min f s.duration) ≤ s.duration
  exact max_le h (min_le_right f s.duration)

/-- C6, witness: seeking to frame `-7` in the default state lands in
`[0, 900]` with playback stopped. -/
theorem setPlayhead_clamps_witness :
    0 ≤ baseState.duration ∧
    0 ≤ (setPlayhead baseState (-7)).playhead ∧
    (setPlayhead baseState (-7)).playhead ≤ (setPlayhead baseState (-7)).duration ∧
    (setPlayhead baseState (-7)).isPlaying = false := by
  have h : (0 : Int) ≤ baseState.duration := by decide
  exact ⟨h, (setPlayhead_clamps baseState (-7) h).2.1,
    (setPlayhead_clamps baseState (-7) h).2.2.1,
    (setPlayhead_clamps baseState (-7) h).2.2.2.1⟩

/-- C7: the store's `setPlayhead` action clamps the playhead into
`[0, duration]` while leaving `isPlaying` untouched, and the clock-sync
path invokes it exactly when playing with a frame delta above 2;
`syncFromClock` therefore never changes `isPlaying`. -/
theorem sync_clock_guard (s : EditorState) (f : Int) (h : 0 ≤ s.duration) :
    (storeSetPlayhead s f).isPlaying = s.isPlaying ∧
    (storeSetPlayhead s f).playhead = max 0 (min f s.duration) ∧
    0 ≤ (storeSetPlayhead s f).playhead ∧
    (storeSetPlayhead s f).playhead ≤ (storeSetPlayhead s f).duration ∧
    (syncFromClock s f).isPlaying = s.isPlaying ∧
    (s.isPlaying = true → 2 < (f - s.playhead).natAbs →
      syncFromClock s f = storeSetPlayhead s f) ∧
    (¬ (s.isPlaying = true ∧ 2 < (f - s.playhead).natAbs) →
      syncFromClock s f = s) := by
  refine ⟨rfl, rfl, le_max_left 0 _,
    max_le h (min_le_right f s.duration), ?_, ?_, ?_⟩
  · unfold syncFromClock
    split
    · rfl
    · rfl
  · intro hp hd
    unfold syncFromClock
    exact if_pos ⟨hp, hd⟩
  · intro hn
    unfold syncFromClock
    exact if_neg hn

/-- C7, witness: while playing, a clock frame 100 frames ahead is
applied through the store action and playback is not stopped. -/
theorem sync_clock_guard_witness :
    0 ≤ playingState.duration ∧
    (syncFromClock playingState 100).isPlaying = playingState.isPlaying ∧
    syncFromClock playingState 100 = storeSetPlayhead playingState 100 ∧
    0 ≤ (storeSetPlayhead playingState 100).playhead := by
  have h : (0 : Int) ≤ playingState.duration := by decide
  refine ⟨h, (sync_clock_guard playingState 100 h).2.2.2.2.1, ?_,
    (sync_clock_guard playingState 100 h).2.2.1⟩
  exact (sync_clock_guard playingState 100 h).2.2.2.2.2.1 (by decide) (by decide)

/-- `setVolFirst` is the identity when no clip matches the id. -/
theorem setVolFirst_noop (id : String) (v : Rat) (l : List Clip)
    (h : ∀ c ∈ l, c.id ≠ id) : setVolFirst id v l = l := by
  induction l with
  | nil => rfl
  | cons c rest ih =>
    rw [setVolFirst, if_neg (h c (List.mem_cons_self c rest))]
    exact congrArg (c :: ·) (ih fun d hd => h d (List.mem_cons_of_mem c hd))

/-- The `order` fields written by `renumber` are `0 .. n-1`. -/
theorem orders_renumber (l : List Clip) :
    (renumber l).map Clip.order = rangeOrders (renumber l).length := by
  rw [renumber, orders_renumberFrom, length_renumberFrom, rangeOrders]
  exact List.map_congr_left fun k _ => zero_add _

/-- A state with no content whose selection dangles on id `x`. -/
def danglingSelState : EditorState :=
  { baseState with selectedId := some "x" }

/-- A one-clip state (clip `a` on `[0, 50)`, order 0). -/
def oneClipState : EditorState :=
  { baseState with media := [mkClip "a" 0 50 0] }

/-- C5, counterexample.  The id `x` matches no clip and no overlay of
`danglingSelState`, yet `removeItem` is not the identity on it: the
dangling selection `some "x"` is cleared to `none`. -/
theorem noop_unmatched_counterexample :
    (∀ c ∈ danglingSelState.media, c.id ≠ "x") ∧
    (∀ t ∈ danglingSelState.texts, t.id ≠ "x") ∧
    removeItem danglingSelState "x" ≠ danglingSelState := by
  decide

/-- C5 (amended): for an id matching no clip and no overlay, `trimClip`,
`trimTextOverlay` and `setClipVolume` return the input state unchanged;
`removeItem` keeps both lists membership- and order-wise intact (the
clips only modulo the unconditional `order` renumbering) and returns the
input state exactly when the selection is not the unmatched id and the
clip `order` fields already read `0 .. n-1`. -/
theorem noop_unmatched_amended (s : EditorState) (id : String) (a b : Int)
    (v : Rat)
    (h : (∀ c ∈ s.media, c.id ≠ id) ∧ ∀ t ∈ s.texts, t.id ≠ id) :
    trimClip s id a b = s ∧
    trimTextOverlay s id a b = s ∧
    setClipVolume s id v = s ∧
    (removeItem s id).texts = s.texts ∧
    (removeItem s id).media.map stripOrder = s.media.map stripOrder ∧
    (s.selectedId ≠ some id →
      s.media.map Clip.order = rangeOrders s.media.length →
      removeItem s id = s) := by
  have hmedia : (s.media.filter fun c => c.id ≠ id) = s.media :=
    filter_eq_self_of_noop _ _ fun c hc => decide_eq_true (h.1 c hc)
  have htexts : (s.texts.filter fun t => t.id ≠ id) = s.texts :=
    filter_eq_self_of_noop _ _ fun t ht => decide_eq_true (h.2 t ht)
  refine ⟨?_, ?_, ?_, ?_, ?_, ?_⟩
  · show { s with media := s.media.map _ } = s
    rw [map_eq_self_of_noop _ _ fun c hc => if_neg (h.1 c hc)]
  · show { s with texts := s.texts.map _ } = s
    rw [map_eq_self_of_noop _ _ fun t ht => if_neg (h.2 t ht)]
  · show { s with media := setVolFirst id v s.media } = s
    rw [setVolFirst_noop id v s.media h.1]
  · exact htexts
  · show (renumber (s.media.filter _)).map stripOrder = s.media.map stripOrder
    rw [hmedia, renumber, strip_renumberFrom]
  · intro hsel hord
    have hord' : s.media.map Clip.order =
        (List.range s.media.length).map fun (k : Nat) => 0 + (k : Int) := by
      rw [hord, rangeOrders]
      exact List.map_congr_left fun k _ => (zero_add _).symm
    have hren : renumber s.media = s.media :=
      renumberFrom_eq_self s.media 0 hord'
    show { s with
        media := renumber (s.media.filter _)
        texts := s.texts.filter _
        selectedId := if s.selectedId = some id then none else s.selectedId } = s
    rw [hmedia, htexts, hren, if_neg hsel]

/-- C5, witness: the unmatched id `b` leaves the one-clip state exactly
unchanged under trim, volume change and removal. -/
theorem noop_unmatched_witness :
    (∀ c ∈ oneClipState.media, c.id ≠ "b") ∧
    trimClip oneClipState "b" 1 2 = oneClipState ∧
    setClipVolume oneClipState "b" (1 / 2) = oneClipState ∧
    removeItem oneClipState "b" = oneClipState := by
  have h : (∀ c ∈ oneClipState.media, c.id ≠ "b") ∧
      ∀ t ∈ oneClipState.texts, t.id ≠ "b" := by decide
  exact ⟨h.1, (noop_unmatched_amended oneClipState "b" 1 2 (1 / 2) h).1,
    (noop_unmatched_amended oneClipState "b" 1 2 (1 / 2) h).2.2.1,
    (noop_unmatched_amended oneClipState "b" 1 2 (1 / 2) h).2.2.2.2.2
      (by decide) (by decide)⟩

/-- C8: after `removeItem` (any id, matched or not) the remaining clips'
`order` fields read exactly `0 .. n-1` in list order while the clips
themselves are the filter of the input (relative order preserved), and a
selection pointing at the removed id is cleared; after `reorderClips`
with in-range indices the `order` fields again read `0 .. n-1`, the list
keeps its length, and dropping the moved clip (now at `toIndex`) leaves
precisely the input without the clip at `fromIndex` — the untouched
clips in their original relative order. -/
theorem order_contiguous (s : EditorState) (id : String) (f t : Nat)
    (hf : f < s.media.length) (ht : t < s.media.length) :
    (removeItem s id).media.map Clip.order =
      rangeOrders (removeItem s id).media.length ∧
    (removeItem s id).media.map stripOrder =
      (s.media.filter fun c => c.id ≠ id).map stripOrder ∧
    (s.selectedId = some id → (removeItem s id).selectedId = none) ∧
    (reorderClips s f t).media.length = s.media.length ∧
    (reorderClips s f t).media.map Clip.order =
      rangeOrders (reorderClips s f t).media.length ∧
    ((reorderClips s f t).media.eraseIdx t).map stripOrder =
      (s.media.eraseIdx f).map stripOrder := by
  have hget := List.get?_eq_get hf
  have hre : reorderClips s f t =
      { s with media := renumber (insertAt (min t (s.media.eraseIdx f).length)
          (s.media.get ⟨f, hf⟩) (s.media.eraseIdx f)) } := by
    unfold reorderClips
    rw [hget]
  have hrl : (s.media.eraseIdx f).length = s.media.length - 1 := by
    rw [List.length_eraseIdx]
    simp [hf]
  have hmin : min t (s.media.eraseIdx f).length = t := by omega
  refine ⟨orders_renumber _, ?_, ?_, ?_, ?_, ?_⟩
  · show (renumber (s.media.filter _)).map stripOrder = _
    rw [renumber, strip_renumberFrom]
  · intro h
    show (if s.selectedId = some id then none else s.selectedId) = none
    rw [if_pos h]
  · rw [hre]
    show (renumber _).length = s.media.length
    rw [renumber, length_renumberFrom, length_insertAt]
    omega
  · rw [hre]
    exact orders_renumber _
  · rw [hre, hmin]
    show ((renumber (insertAt t _ _)).eraseIdx t).map stripOrder = _
    rw [map_eraseIdx, renumber, strip_renumberFrom, ← map_eraseIdx]
    refine congrArg (List.map stripOrder) ?_
    have ht' : t = min t (s.media.eraseIdx f).length := hmin.symm
    nth_rewrite 2 [ht']
    exact eraseIdx_insertAt t (s.media.get ⟨f, hf⟩) (s.media.eraseIdx f)

/-- C8, witness: on three clips `[c1, c2, c3]`, `reorder(0, 2)` yields
orders `0, 1, 2` (the spec's scenario `[c2, c3, c1]`), and removal keeps
the orders contiguous. -/
theorem order_contiguous_witness :
    0 < threeClipState.media.length ∧ 2 < threeClipState.media.length ∧
    (reorderClips threeClipState 0 2).media.map Clip.order =
      rangeOrders (reorderClips threeClipState 0 2).media.length ∧
    (removeItem threeClipState "c2").media.map Clip.order =
      rangeOrders (removeItem threeClipState "c2").media.length := by
  have hf : (0 : Nat) < threeClipState.media.length := by decide
  have ht : (2 : Nat) < threeClipState.media.length := by decide
  exact ⟨hf, ht, (order_contiguous threeClipState "c2" 0 2 hf ht).2.2.2.2.1,
    (order_contiguous threeClipState "c2" 0 2 hf ht).1⟩

/-- C9: `validateTimelineState` returns exactly the overlap diagnostics
of the adjacent sorted clip pairs (clips only — varying the overlays
never adds an overlap message) followed by the per-item range
diagnostics of every clip and overlay; on two clips `[0, 60)` and
`[50, 100)` it returns exactly one overlap message naming both ids. -/
theorem validate_diagnostics (s : EditorState) :
    validateTimelineState s =
      overlapDiagnosticsSpec s.media ++ (allItems s).flatMap itemRangeErrors ∧
    validateTimelineState overlapScenarioState =
      ["Clip c1 overlaps with clip c2"] := by
  refine ⟨?_, by decide⟩
  unfold validateTimelineState overlapDiagnosticsSpec
  rw [adjacentOverlaps_eq_zip]

/-- The resolved splice index never exceeds the length. -/
theorem jsIdx_le (i : Int) (n : Nat) : jsIdx i n ≤ n := by
  unfold jsIdx
  split <;> omega

/-- C10, counterexample.  `fromIndex = -1` is outside `0 ≤ fromIndex <
|media|`, yet JS `splice` resolves it to `length - 1`, so `reorderClips`
still removes a real clip and re-inserts it: the media list keeps its
length and, seen through `elemStrip`, is a permutation of the input —
the set of clips is preserved outside the claimed precondition. -/
theorem reorder_negative_counterexample :
    ¬ (0 ≤ (-1 : Int)) ∧
    ((reorderMediaJS [mkClip "a" 0 10 0, mkClip "b" 5 20 1] (-1) 0).map
      elemStrip).Perm
      ([mkClip "a" 0 10 0, mkClip "b" 5 20 1].map fun c =>
        some (stripOrder c)) ∧
    (reorderMediaJS [mkClip "a" 0 10 0, mkClip "b" 5 20 1] (-1) 0).length
      = 2 := by
  decide

/-- C10 (amended): whenever the splice removal index resolves below the
length — which the second and third conjuncts prove it does for EVERY
`fromIndex` with `0 ≤ fromIndex < |media|` and, because JS resolves a
negative index to `|media| + fromIndex` floored at 0, for EVERY negative
`fromIndex` on any non-empty list — the returned media list is, modulo
the `order` renumbering, a permutation of the input of the same length;
only for `fromIndex ≥ |media|` does the splice remove nothing yet
re-insert its `undefined` result, so the list grows by one element which
is the malformed `{order: index}` object at the resolved insertion
index. -/
theorem reorder_splice_amended (media : List Clip) (f t : Int) :
    (jsIdx f media.length < media.length →
      ((reorderMediaJS media f t).map elemStrip).Perm
        (media.map fun c => some (stripOrder c)) ∧
      (reorderMediaJS media f t).length = media.length) ∧
    (0 ≤ f → f.toNat < media.length → jsIdx f media.length < media.length) ∧
    (f < 0 → media ≠ [] → jsIdx f media.length < media.length) ∧
    ((media.length : Int) ≤ f →
      (reorderMediaJS media f t).length = media.length + 1 ∧
      (reorderMediaJS media f t).get? (jsIdx t media.length) =
        some (.ghost (jsIdx t media.length))) := by
  refine ⟨?_, ?_, ?_, ?_⟩
  · intro hk
    have hget := List.get?_eq_get hk
    have hmain : reorderMediaJS media f t =
        renumberElems 0
          (insertAt (jsIdx t (media.eraseIdx (jsIdx f media.length)).length)
            (some (media.get ⟨jsIdx f media.length, hk⟩))
            ((media.eraseIdx (jsIdx f media.length)).map some)) := by
      simp only [reorderMediaJS]
      rw [hget, if_pos hk]
    constructor
    · rw [hmain, elemStrip_renumberElems, map_insertAt, List.map_map]
      refine (insertAt_perm _ _ _).trans ?_
      have hperm := perm_get_cons_eraseIdx media (jsIdx f media.length) hk
      have := (hperm.map fun c => some (stripOrder c)).symm
      simpa [Function.comp] using this
    · rw [hmain, length_renumberElems, length_insertAt, List.length_map,
        List.length_eraseIdx]
      simp [hk]
      omega
  · intro h0 hlt
    unfold jsIdx
    split <;> omega
  · intro hneg hne
    have hpos : 0 < media.length := List.length_pos.mpr hne
    unfold jsIdx
    split <;> omega
  · intro hge
    have hkf : jsIdx f media.length = media.length := by
      unfold jsIdx
      split <;> omega
    have hnone : media.get? media.length = none :=
      List.get?_eq_none.mpr (le_refl _)
    have hmain : reorderMediaJS media f t =
        renumberElems 0 (insertAt (jsIdx t media.length) none
          (media.map some)) := by
      simp only [reorderMediaJS]
      rw [hkf, hnone, if_neg (lt_irrefl media.length)]
    constructor
    · rw [hmain, length_renumberElems, length_insertAt, List.length_map]
    · rw [hmain]
      have hmin : min (jsIdx t media.length) (media.map some).length =
          jsIdx t media.length := by
        rw [List.length_map]
        exact min_eq_left (jsIdx_le t media.length)
      have hins := get_insertAt (jsIdx t media.length) (none : Option Clip)
        (media.map some)
      rw [hmin] at hins
      have := renumberElems_get_ghost _ 0 (jsIdx t media.length) hins
      simpa using this

/-- C10, witness: on a one-clip list, the resolved index of
`fromIndex = 0` is in range and the permutation holds; the negative
`fromIndex = -2` also resolves in range; `fromIndex = 1 = |media|` grows
the list to length 2. -/
theorem reorder_splice_witness :
    jsIdx 0 [mkClip "a" 0 10 0].length < [mkClip "a" 0 10 0].length ∧
    ((reorderMediaJS [mkClip "a" 0 10 0] 0 0).map elemStrip).Perm
      ([mkClip "a" 0 10 0].map fun c => some (stripOrder c)) ∧
    (-2 : Int) < 0 ∧ ([mkClip "a" 0 10 0] : List Clip) ≠ [] ∧
    jsIdx (-2) [mkClip "a" 0 10 0].length < [mkClip "a" 0 10 0].length ∧
    ([mkClip "a" 0 10 0].length : Int) ≤ 1 ∧
    (reorderMediaJS [mkClip "a" 0 10 0] 1 0).length = 2 := by
  refine ⟨by decide, ?_, by decide, by decide, ?_, by decide, ?_⟩
  · exact ((reorder_splice_amended [mkClip "a" 0 10 0] 0 0).1 (by decide)).1
  · exact (reorder_splice_amended [mkClip "a" 0 10 0] (-2) 0).2.2.1
      (by decide) (by decide)
  · exact ((reorder_splice_amended [mkClip "a" 0 10 0] 1 0).2.2.2
      (by decide)).1

end VidRush
